import Mathlib

/-!
Verification development for the CruxRec repository.

The repository is a small Python pipeline (src/cruxrec) that obtains a textual
transcript of a video, first from official subtitles, then from auto-generated
subtitles, then from an audio-transcription fallback, and finally summarizes
the transcript.  This file gives a shallow embedding of the pipeline logic:

* the subtitle text normalizer of SubsProvider.parse_subtitle
  (src/cruxrec/subs_provider.py, the per-line cleaning loop);
* the acquisition protocol of SubsProvider.fetch_subtitles;
* the audio transcription fallback Transcriber.transcribe_from_url and its
  private helpers (src/cruxrec/transcriber.py), with explicit tracking of the
  temporary files on disk;
* the pipeline controller Pipline.start (src/cruxrec/pipline.py) and the CLI
  entry point main (src/cruxrec/cli.py).

Text is modeled as `List Char`.  External collaborators (yt-dlp, ffmpeg,
ffprobe, the Whisper API, the Gemini summarizer) are modeled as oracles whose
answers are quantified over; each oracle field corresponds to one call site in
the Python source.
-/

namespace CruxRec

/-! ### Subtitle text normalizer (SubsProvider.parse_subtitle) -/

/-- Whitespace characters removed by the Python `str.strip()` calls in
`parse_subtitle`. -/
def pySpace (c : Char) : Bool :=
  c == ' ' || c == '\t' || c == '\n' || c == '\r' || c == '\x0b' || c == '\x0c'

/-- Line-break characters recognized by Python `str.splitlines()`. -/
def pyBreak (c : Char) : Bool :=
  c == '\r' || c == '\n' || c == '\x0b' || c == '\x0c' || c == '\x1c' ||
  c == '\x1d' || c == '\x1e' || c == '\u0085' || c == '\u2028' || c == '\u2029'

/-- Python `str.strip()`: remove whitespace from both ends of a line. -/
def pyStrip (l : List Char) : List Char :=
  List.rdropWhile pySpace (List.dropWhile pySpace l)

/-- Helper for `splitLines`: `acc` holds the current (reversed) line and
`skipNL` records that the previous character was `'\r'`, so an immediately
following `'\n'` belongs to the same `"\r\n"` break. -/
def splitLinesAux : List Char → Bool → List Char → List (List Char)
  | [], _, acc => if acc = [] then [] else [acc.reverse]
  | c :: rest, skipNL, acc =>
    if skipNL && (c == '\n') then splitLinesAux rest false acc
    else if c == '\r' then acc.reverse :: splitLinesAux rest true []
    else if pyBreak c then acc.reverse :: splitLinesAux rest false []
    else splitLinesAux rest false (c :: acc)

/-- Python `str.splitlines()`, as used by `parse_subtitle` on the file text. -/
def splitLines (s : List Char) : List (List Char) :=
  splitLinesAux s false []

/-- Python `"\n".join(cleaned_lines)`. -/
def joinLines : List (List Char) → List Char
  | [] => []
  | l :: [] => l
  | l :: r :: rest => l ++ '\n' :: joinLines (r :: rest)

/-- One left-to-right scan of `re.sub(r"<[^>]*>", "", line)`.  When `inTag` is
set, `buf` holds the (reversed) characters consumed since the opening `<`;
they are emitted verbatim at the end of the line if no closing `>` follows,
exactly as the regex leaves an unterminated `<...` in place. -/
def stripTagsAux : List Char → Bool → List Char → List Char
  | [], false, _ => []
  | [], true, buf => buf.reverse
  | c :: rest, false, _ =>
    if c == '<' then stripTagsAux rest true [c]
    else c :: stripTagsAux rest false []
  | c :: rest, true, buf =>
    if c == '>' then stripTagsAux rest false []
    else stripTagsAux rest true (c :: buf)

/-- `html_tag_re.sub("", line)` of `parse_subtitle`: delete every maximal
`<[^>]*>` match, keep everything else. -/
def stripTags (l : List Char) : List Char :=
  stripTagsAux l false []

/-- A line is tag-free when no occurrence of `<` is followed (anywhere later in
the line) by a `>`; on such lines the regex `<[^>]*>` has no match. -/
def tagFree (l : List Char) : Prop :=
  ∀ r, List.IsSuffix ('<' :: r) l → '>' ∉ r

/-- Match `\d{2}:\d{2}:\d{2}\.\d+` at the head of the line, returning the rest
of the line after the greedy `\d+`. -/
def matchClock (l : List Char) : Option (List Char) :=
  match l with
  | a :: b :: c :: d :: e :: f :: g :: h :: i :: j :: rest =>
    if a.isDigit && b.isDigit && (c == ':') && d.isDigit && e.isDigit &&
       (f == ':') && g.isDigit && h.isDigit && (i == '.') && j.isDigit then
      some (rest.dropWhile Char.isDigit)
    else none
  | _ => none

/-- `timestamp_re.match(line)` of `parse_subtitle`: a prefix of the form
`HH:MM:SS.fff --> HH:MM:SS.fff` (with `\s*` around the arrow). -/
def isTimestamp (l : List Char) : Bool :=
  match matchClock l with
  | none => false
  | some r =>
    match r.dropWhile pySpace with
    | '-' :: '-' :: '>' :: r2 => (matchClock (r2.dropWhile pySpace)).isSome
    | _ => false

/-- The header test of `parse_subtitle`: `line.startswith("WEBVTT")`,
`line.startswith("Kind:")` or `line.startswith("Language:")`. -/
def headerLike (l : List Char) : Bool :=
  List.isPrefixOf "WEBVTT".toList l || List.isPrefixOf "Kind:".toList l ||
  List.isPrefixOf "Language:".toList l

/-- The per-line body of the cleaning loop in `parse_subtitle`: strip, drop
blank lines, drop header lines, drop timestamp lines, strip markup, re-strip,
drop if blank; `some` is the line that survives. -/
def processLine (raw : List Char) : Option (List Char) :=
  if pyStrip raw = [] then none
  else if headerLike (pyStrip raw) then none
  else if isTimestamp (pyStrip raw) then none
  else if pyStrip (stripTags (pyStrip raw)) = [] then none
  else some (pyStrip (stripTags (pyStrip raw)))

/-- The cleaning loop of `parse_subtitle` with its `prev_line` register:
a surviving line is appended only when it differs from the previously
appended line, and `prev_line` is updated only on append. -/
def cleanLoop : Option (List Char) → List (List Char) → List (List Char)
  | _, [] => []
  | prev, line :: rest =>
    match processLine line with
    | none => cleanLoop prev rest
    | some l2 =>
      if prev = some l2 then cleanLoop prev rest
      else l2 :: cleanLoop (some l2) rest

/-- `parse_subtitle` on a list of already-split raw lines: clean them and join
with newlines. -/
def normalizeLines (lines : List (List Char)) : List Char :=
  joinLines (cleanLoop none lines)

/-- `parse_subtitle` on raw file text: `f.read().splitlines()` followed by the
cleaning loop and the final join. -/
def normalizeText (s : List Char) : List Char :=
  normalizeLines (splitLines s)

/-! ### Audio transcription fallback (Transcriber, src/cruxrec/transcriber.py) -/

/-- Python exception classes raised or caught by the modeled code paths. -/
inductive PyErr
  | runtimeError
  | valueError
  | osError
  | apiError
  | ioError
deriving DecidableEq, Repr

/-- The temporary files a `transcribe_from_url` run can have on disk: the
downloaded video, the extracted `.m4a` audio, the converted `.wav` audio.
`true` means the file currently exists. -/
structure Disk where
  video : Bool
  audio : Bool
  wav : Bool
deriving DecidableEq, Repr

/-- The empty working directory: none of the three temporaries exist. -/
def emptyDisk : Disk := ⟨false, false, false⟩

/-- Observable calls of `_download_video` into the Downloader capability. -/
inductive TEvent
  | probeMeta
  | downloadVideo
deriving DecidableEq, Repr

/-- The part of the `ydl.extract_info` result that `_download_video` reads:
`duration` is `none` when the `"duration"` key is absent from `info_dict`. -/
structure TInfo where
  duration : Option Int
deriving DecidableEq, Repr

/-- Oracle fixing the answer of every external call one `transcribe_from_url`
run can make.  Failure of `ydl.download` is modeled as the opaque Downloader
producing no file. -/
structure TOracle where
  extractInfo : Option TInfo
  downloadOk : Bool
  spawnExtractOk : Bool
  extractCreatesAudio : Bool
  extractExitZero : Bool
  spawnProbeOk : Bool
  codec : List Char
  spawnConvertOk : Bool
  convertCreatesWav : Bool
  whisper : Option (List Char)
deriving Repr

/-- The codec name `_transcribe_audio` compares the ffprobe output against. -/
def pcmCodec : List Char := "pcm_s16le".toList

/-- `Transcriber._download_video`: probe metadata without downloading; raise
`RuntimeError` when `extract_info` returns `None`; read
`info_dict.get("duration", 0)`; download only when the duration is within
`max_duration_s`, else raise `ValueError`. -/
def download_video (o : TOracle) (max_duration_s : Int) :
    Except PyErr Unit × Disk × List TEvent :=
  match o.extractInfo with
  | none => (Except.error PyErr.runtimeError, emptyDisk, [TEvent.probeMeta])
  | some info =>
    if info.duration.getD 0 ≤ max_duration_s then
      if o.downloadOk then
        (Except.ok (), ⟨true, false, false⟩, [TEvent.probeMeta, TEvent.downloadVideo])
      else
        (Except.error PyErr.osError, emptyDisk, [TEvent.probeMeta, TEvent.downloadVideo])
    else (Except.error PyErr.valueError, emptyDisk, [TEvent.probeMeta])

/-- The `try` block of `Transcriber._transcribe_audio` after the ffprobe codec
query: convert to PCM WAV when the codec is not `pcm_s16le` (the conversion
exit status is never checked, so a failed conversion only shows up when the
`.wav` is missing at `open`), then call the Whisper API. -/
def whisper_attempt (o : TOracle) (d : Disk) : Except PyErr (List Char) × Disk :=
  if o.codec ≠ pcmCodec then
    if o.spawnConvertOk then
      if o.convertCreatesWav then
        match o.whisper with
        | some t => (Except.ok t, { d with wav := true })
        | none => (Except.error PyErr.apiError, { d with wav := true })
      else (Except.error PyErr.osError, { d with wav := false })
    else (Except.error PyErr.osError, d)
  else
    if d.audio then
      match o.whisper with
      | some t => (Except.ok t, d)
      | none => (Except.error PyErr.apiError, d)
    else (Except.error PyErr.osError, d)

/-- `Transcriber._transcribe_audio`: the ffprobe spawn happens before the
`try`, so its failure propagates; every failure inside the `try` is caught by
the `except` clause which returns the empty string; the `finally` clause
removes the `.wav` file when it exists. -/
def transcribe_audio (o : TOracle) (d : Disk) : Except PyErr (List Char) × Disk :=
  if o.spawnProbeOk then
    match whisper_attempt o d with
    | (Except.ok t, d1) => (Except.ok t, { d1 with wav := false })
    | (Except.error _, d1) => (Except.ok [], { d1 with wav := false })
  else (Except.error PyErr.osError, d)

/-- `Transcriber._extract_audio` wrapped (as the `async with` block of
`transcribe_from_url` does) around `_transcribe_audio`: spawn ffmpeg, fail
hard on a nonzero exit status, run the body, and in every case run the
`finally` clause that removes the audio file when it exists. -/
def extract_and_transcribe (o : TOracle) (d : Disk) :
    Except PyErr (List Char) × Disk :=
  if o.spawnExtractOk then
    if o.extractExitZero then
      match transcribe_audio o { d with audio := o.extractCreatesAudio } with
      | (r, d1) => (r, { d1 with audio := false })
    else (Except.error PyErr.runtimeError, { d with audio := false })
  else (Except.error PyErr.osError, { d with audio := false })

/-- The `try` block of `Transcriber.transcribe_from_url`: download, then
extract and transcribe. -/
def transcribe_attempt (o : TOracle) (max_duration_s : Int) :
    Except PyErr (List Char) × Disk × List TEvent :=
  match download_video o max_duration_s with
  | (Except.error e, d, evs) => (Except.error e, d, evs)
  | (Except.ok _, d, evs) =>
    match extract_and_transcribe o d with
    | (r, d1) => (r, d1, evs)

/-- `Transcriber.transcribe_from_url` (the body of the coroutine): any
exception from the `try` block is caught and logged, leaving the transcription
equal to the empty string; the `finally` clause removes the video file when it
exists (when `_download_video` raised, `video_file` is still `None` and no
video file was produced). -/
def transcribe_from_url (o : TOracle) (max_duration_s : Int) :
    List Char × Disk × List TEvent :=
  match transcribe_attempt o max_duration_s with
  | (Except.ok t, d, evs) => (t, { d with video := false }, evs)
  | (Except.error _, d, evs) => ([], { d with video := false }, evs)

/-! ### Subtitle acquisition (SubsProvider, src/cruxrec/subs_provider.py) -/

/-- A located subtitle file: its `st_size` and its text.  `content = none`
means that opening or reading the file raises `IOError`. -/
structure SubFile where
  size : Nat
  content : Option (List Char)
deriving DecidableEq, Repr

/-- Oracle fixing the answers of the external calls a `fetch_subtitles` run
can make: whether `download_subtitles(write_auto)` succeeds, and what
`find_subtitle_file()` locates after the first and after the fallback
download. -/
structure SubsOracle where
  downloadOk : Bool → Bool
  found1 : Option SubFile
  found2 : Option SubFile

/-- Observable calls of the pipeline into external capabilities.
`subsDownload b` is a `download_subtitles(write_auto := b)` run. -/
inductive PEvent
  | subsDownload (auto : Bool)
  | summarize (text : List Char)
  | probeMeta
  | downloadVideo
deriving DecidableEq, Repr

/-- The size-zero check applied by `fetch_subtitles` right after
`find_subtitle_file`: a file of size 0 is treated as absent. -/
def validFile : Option SubFile → Option SubFile
  | some f => if f.size = 0 then none else some f
  | none => none

/-- `SubsProvider.parse_subtitle` at a located file: re-raise a read failure
as `IOError`, otherwise split, clean and join the text. -/
def parse_subtitle (f : SubFile) : Except PyErr (List Char) :=
  match f.content with
  | none => Except.error PyErr.ioError
  | some s => Except.ok (normalizeText s)

/-- The tail of `fetch_subtitles` once a valid file is in hand: parse it and
return `None` when the parsed text strips to nothing. -/
def parsedResult (f : SubFile) : Except PyErr (Option (List Char)) :=
  match parse_subtitle f with
  | Except.error e => Except.error e
  | Except.ok text => if pyStrip text = [] then Except.ok none else Except.ok (some text)

/-- `SubsProvider.fetch_subtitles`: download (result ignored), locate a valid
file; when none was found and the caller did not already request
auto-generated subtitles, download again with `write_auto=True` (returning
`None` when that download fails) and locate again; finally parse.  The `url`
and `lang` arguments only feed the yt-dlp options. -/
def fetch_subtitles (o : SubsOracle) (url lang : List Char) (auto_sub : Bool) :
    Except PyErr (Option (List Char)) × List PEvent :=
  match validFile o.found1 with
  | some f => (parsedResult f, [PEvent.subsDownload auto_sub])
  | none =>
    if auto_sub then (Except.ok none, [PEvent.subsDownload auto_sub])
    else
      if o.downloadOk true then
        match validFile o.found2 with
        | some f => (parsedResult f, [PEvent.subsDownload auto_sub, PEvent.subsDownload true])
        | none => (Except.ok none, [PEvent.subsDownload auto_sub, PEvent.subsDownload true])
      else (Except.ok none, [PEvent.subsDownload auto_sub, PEvent.subsDownload true])

/-- Whether the file (if any) a phase located can be read without raising:
used to state the amended propagation claim. -/
def readableOpt : Option SubFile → Bool
  | none => true
  | some f => f.content.isSome

/-! ### Pipeline controller (Pipline, src/cruxrec/pipline.py) -/

/-- How one `Pipline.start` run ends.  The two `exit` outcomes model the
`sys.exit(1)` calls performed after logging a missing credential; the spec
abstracts them as the `MissingCredential` failure. `noneOut` is a `return
None` (the spec abstracts these as `NoTranscriptAvailable` or
`SummarizationFailed`). -/
inductive Outcome
  | summaryOut (s : List Char)
  | noneOut
  | exitMissingGemini
  | exitMissingOpenai
deriving DecidableEq, Repr

/-- The Python value held by the `subtitles_text` variable of `Pipline.start`.
`vCoroutine` is the un-awaited coroutine object produced by calling the
`async def transcribe_from_url` without `await`. -/
inductive PyVal
  | vNone
  | vStr (s : List Char)
  | vCoroutine
deriving DecidableEq, Repr

/-- Python truthiness of the values `subtitles_text` can hold: `None` is
falsy, a string is truthy when non-empty, a coroutine object is truthy. -/
def truthy : PyVal → Bool
  | PyVal.vNone => false
  | PyVal.vStr s => !s.isEmpty
  | PyVal.vCoroutine => true

/-- The value `fetch_subtitles` hands to `Pipline.start`. -/
def optToVal : Option (List Char) → PyVal
  | none => PyVal.vNone
  | some s => PyVal.vStr s

/-- Modelled from the spec: the opaque Summarization capability
(`GeminiSummarizer.summarize` of the `summarizer` module, which is not part of
the repository sources) — `summarize(text, prompt, credential) → summaryText`,
may fail with an API-error condition (`none`). -/
def Summarizer : Type := List Char → Option (List Char)

/-- The ambient state a `Pipline.start` run reads: the two environment
credentials, the subtitle oracle, the transcription oracle held by the
`Transcriber` object, and the summarization capability. -/
structure PipeEnv where
  geminiKey : Option (List Char)
  openaiKey : Option (List Char)
  subs : SubsOracle
  transc : TOracle
  summarizeFn : Summarizer

/-- The `Pipline` object: constructor arguments `prompt`, `url`, `lang`. -/
structure Pipline where
  prompt : List Char
  url : List Char
  lang : List Char

/-- The tail of `Pipline.start` after the fallback block: `if not
subtitles_text: return None`, then the `try` block which builds the summarizer
and calls `summarize` only when `isinstance(subtitles_text, str)` holds,
catching any exception as `return None`; falling through the `isinstance`
guard also returns `None`. -/
def afterAcq (env : PipeEnv) (v : PyVal) (evs : List PEvent) :
    Except PyErr (Outcome × List PEvent) :=
  if truthy v then
    match v with
    | PyVal.vStr t =>
      (match env.summarizeFn t with
       | some summary => Except.ok (Outcome.summaryOut summary, evs ++ [PEvent.summarize t])
       | none => Except.ok (Outcome.noneOut, evs ++ [PEvent.summarize t]))
    | _ => Except.ok (Outcome.noneOut, evs)
  else Except.ok (Outcome.noneOut, evs)

/-- `Pipline.start`: check `GEMINI_KEY` (exit when missing), fetch subtitles
with the default `auto_sub=False`; when the result is falsy, check
`OPENAI_API_KEY` (exit when missing) and call `transcriber.transcribe_from_url
(self.url)` without `await`, so `subtitles_text` becomes the coroutine object
and the transcription never runs; finally run the summarization tail.  An
exception escaping `fetch_subtitles` propagates out of `start`. -/
def Pipline.start (pl : Pipline) (env : PipeEnv) :
    Except PyErr (Outcome × List PEvent) :=
  match env.geminiKey with
  | none => Except.ok (Outcome.exitMissingGemini, [])
  | some _ =>
    match fetch_subtitles env.subs pl.url pl.lang false with
    | (Except.error e, _) => Except.error e
    | (Except.ok r, evs) =>
      if truthy (optToVal r) then afterAcq env (optToVal r) evs
      else
        match env.openaiKey with
        | none => Except.ok (Outcome.exitMissingOpenai, evs)
        | some _ => afterAcq env PyVal.vCoroutine evs

/-! ### CLI entry point (src/cruxrec/cli.py) -/

/-- The parsed command line: `prompt`, `url`, `--lang` and the store-true
flag `--auto-sub`. -/
structure CliArgs where
  prompt : List Char
  url : List Char
  lang : List Char
  auto_sub : Bool

/-- `main` of cli.py: construct `Pipline(args.prompt, args.url, args.lang)`
and run it.  `args.auto_sub` is parsed but never read. -/
def main (args : CliArgs) (env : PipeEnv) : Except PyErr (Outcome × List PEvent) :=
  Pipline.start ⟨args.prompt, args.url, args.lang⟩ env


/-! ### Lemmas: the normalizer -/


theorem head?_dropWhile {p : Char → Bool} :
    ∀ {l : List Char} {a : Char}, (List.dropWhile p l).head? = some a → p a = false := by
  intro l
  induction l with
  | nil => intro a h; simp [List.dropWhile] at h
  | cons c cs ih =>
    intro a h
    rw [List.dropWhile_cons] at h
    by_cases hp : p c
    · rw [if_pos hp] at h; exact ih h
    · rw [if_neg hp] at h
      simp only [List.head?_cons, Option.some.injEq] at h
      subst h
      exact Bool.not_eq_true _ ▸ (by simpa using hp)

theorem dropWhile_eq_self_of_head {p : Char → Bool} {l : List Char}
    (h : ∀ a, l.head? = some a → p a = false) : List.dropWhile p l = l := by
  cases l with
  | nil => rfl
  | cons c cs =>
    rw [List.dropWhile_cons, if_neg]
    simp [h c rfl]

theorem pyStrip_sublist (l : List Char) : List.Sublist (pyStrip l) l :=
  (List.rdropWhile_prefix pySpace _).sublist.trans (List.dropWhile_suffix pySpace).sublist

theorem mem_of_mem_pyStrip {c : Char} {l : List Char} (h : c ∈ pyStrip l) : c ∈ l :=
  (pyStrip_sublist l).subset h

theorem dropWhile_pyStrip (l : List Char) :
    List.dropWhile pySpace (pyStrip l) = pyStrip l := by
  apply dropWhile_eq_self_of_head
  intro a ha
  have hpre : List.IsPrefix (pyStrip l) (List.dropWhile pySpace l) :=
    List.rdropWhile_prefix pySpace _
  obtain ⟨t, ht⟩ := hpre
  apply head?_dropWhile (l := l)
  rw [← ht]
  cases hx : pyStrip l with
  | nil => rw [hx] at ha; simp at ha
  | cons c cs =>
    rw [hx] at ha
    simp only [List.head?_cons, Option.some.injEq] at ha
    subst ha
    simp

theorem pyStrip_idem (l : List Char) : pyStrip (pyStrip l) = pyStrip l := by
  show List.rdropWhile pySpace (List.dropWhile pySpace (pyStrip l)) = pyStrip l
  rw [dropWhile_pyStrip l]
  exact List.rdropWhile_idempotent pySpace _



theorem stripTagsAux_true (l : List Char) : ∀ buf : List Char,
    stripTagsAux l true buf =
      if '>' ∈ l then stripTags ((l.dropWhile (fun c => !(c == '>'))).tail)
      else buf.reverse ++ l := by
  induction l with
  | nil => intro buf; simp [stripTagsAux]
  | cons c rest ih =>
    intro buf
    by_cases hc : c = '>'
    · subst hc
      simp [stripTagsAux, stripTags, List.dropWhile_cons]
    · have hcb : (c == '>') = false := by simp [hc]
      rw [show stripTagsAux (c :: rest) true buf = stripTagsAux rest true (c :: buf) from by
        simp [stripTagsAux, hcb]]
      rw [ih]
      by_cases hm : '>' ∈ rest
      · have hm2 : '>' ∈ c :: rest := List.mem_cons_of_mem _ hm
        simp [hm, hm2, List.dropWhile_cons, hcb]
      · have hm2 : '>' ∉ c :: rest := by
          simp [List.mem_cons, hm]
          intro h; exact hc h.symm
        simp [hm, hm2]

theorem stripTags_nil : stripTags [] = [] := rfl

theorem stripTags_cons (c : Char) (rest : List Char) :
    stripTags (c :: rest) =
      if c = '<' then
        (if '>' ∈ rest then stripTags ((rest.dropWhile (fun x => !(x == '>'))).tail)
         else c :: rest)
      else c :: stripTags rest := by
  by_cases hc : c = '<'
  · have hb : (c == '<') = true := by simp [hc]
    rw [if_pos hc]
    rw [show stripTags (c :: rest) = stripTagsAux rest true [c] from by
      simp [stripTags, stripTagsAux, hb]]
    rw [stripTagsAux_true]
    simp
  · have hb : (c == '<') = false := by simp [hc]
    rw [if_neg hc]
    simp [stripTags, stripTagsAux, hb]

theorem mem_stripTagsAux : ∀ (l : List Char) (m : Bool) (buf : List Char) (a : Char),
    a ∈ stripTagsAux l m buf → a ∈ buf ∨ a ∈ l := by
  intro l
  induction l with
  | nil =>
    intro m buf a h
    cases m
    · simp [stripTagsAux] at h
    · simp [stripTagsAux] at h
      exact Or.inl h
  | cons c rest ih =>
    intro m buf a h
    cases m
    · by_cases hc : c = '<'
      · rw [show stripTagsAux (c :: rest) false buf = stripTagsAux rest true [c] from by
          simp [stripTagsAux, hc]] at h
        rcases ih true [c] a h with h' | h'
        · simp at h'
          exact Or.inr (by simp [h'])
        · exact Or.inr (List.mem_cons_of_mem _ h')
      · rw [show stripTagsAux (c :: rest) false buf = c :: stripTagsAux rest false [] from by
          simp [stripTagsAux, hc]] at h
        rcases List.mem_cons.mp h with h' | h'
        · exact Or.inr (by simp [h'])
        · rcases ih false [] a h' with h'' | h''
          · simp at h''
          · exact Or.inr (List.mem_cons_of_mem _ h'')
    · by_cases hc : c = '>'
      · rw [show stripTagsAux (c :: rest) true buf = stripTagsAux rest false [] from by
          simp [stripTagsAux, hc]] at h
        rcases ih false [] a h with h' | h'
        · simp at h'
        · exact Or.inr (List.mem_cons_of_mem _ h')
      · rw [show stripTagsAux (c :: rest) true buf = stripTagsAux rest true (c :: buf) from by
          simp [stripTagsAux, hc]] at h
        rcases ih true (c :: buf) a h with h' | h'
        · rcases List.mem_cons.mp h' with h'' | h''
          · exact Or.inr (by simp [h''])
          · exact Or.inl h''
        · exact Or.inr (List.mem_cons_of_mem _ h')

theorem mem_stripTags {a : Char} {l : List Char} (h : a ∈ stripTags l) : a ∈ l := by
  rcases mem_stripTagsAux l false [] a h with h' | h'
  · simp at h'
  · exact h'



theorem tagFree_nil : tagFree [] := by
  intro r hr
  have := List.suffix_nil.mp hr
  simp at this

theorem tagFree_cons {c : Char} {l : List Char} :
    tagFree (c :: l) ↔ (c = '<' → '>' ∉ l) ∧ tagFree l := by
  constructor
  · intro h
    refine ⟨fun hc => ?_, fun r hr => h r (hr.trans (List.suffix_cons c l))⟩
    subst hc
    exact h l (List.suffix_refl _)
  · rintro ⟨h1, h2⟩ r hr
    rcases List.suffix_cons_iff.mp hr with h | h
    · injection h with hc hl
      subst hl
      exact h1 hc.symm
    · exact h2 r h

theorem tagFree_of_not_mem {l : List Char} (h : '>' ∉ l) : tagFree l := by
  intro r hr hmem
  exact h (hr.sublist.subset (List.mem_cons_of_mem _ hmem))

theorem tagFree_sublist : ∀ {l' l : List Char}, List.Sublist l' l → tagFree l → tagFree l' := by
  intro l' l h
  induction h with
  | slnil => intro _; exact tagFree_nil
  | cons a h ih => intro hf; exact ih ((tagFree_cons.mp hf).2)
  | cons₂ a h ih =>
    intro hf
    rcases tagFree_cons.mp hf with ⟨h1, h2⟩
    exact tagFree_cons.mpr ⟨fun hc hm => h1 hc (h.subset hm), ih h2⟩

theorem stripTags_tagFree : ∀ l : List Char, tagFree (stripTags l)
  | [] => by rw [stripTags_nil]; exact tagFree_nil
  | c :: rest => by
    rw [stripTags_cons]
    by_cases hc : c = '<'
    · rw [if_pos hc]
      by_cases hm : '>' ∈ rest
      · rw [if_pos hm]
        exact stripTags_tagFree _
      · rw [if_neg hm]
        subst hc
        exact tagFree_cons.mpr ⟨fun _ => hm, tagFree_of_not_mem hm⟩
    · rw [if_neg hc]
      exact tagFree_cons.mpr ⟨fun h => absurd h hc, stripTags_tagFree rest⟩
termination_by l => l.length
decreasing_by
  · simp only [List.length_cons]
    have h1 := (List.dropWhile_suffix (l := rest) (fun x => !(x == '>'))).sublist.length_le
    have h2 := List.length_tail (rest.dropWhile (fun x => !(x == '>')))
    omega
  · simp only [List.length_cons]
    omega

theorem stripTags_of_tagFree : ∀ {l : List Char}, tagFree l → stripTags l = l
  | [], _ => stripTags_nil
  | c :: rest, h => by
    rw [stripTags_cons]
    rcases tagFree_cons.mp h with ⟨h1, h2⟩
    by_cases hc : c = '<'
    · rw [if_pos hc, if_neg (h1 hc)]
    · rw [if_neg hc, stripTags_of_tagFree h2]



theorem processLine_eq_some {raw l : List Char} (h : processLine raw = some l) :
    l = pyStrip (stripTags (pyStrip raw)) ∧ l ≠ [] := by
  unfold processLine at h
  split at h
  · exact absurd h (by simp)
  · split at h
    · exact absurd h (by simp)
    · split at h
      · exact absurd h (by simp)
      · split at h
        · exact absurd h (by simp)
        · rename_i h4
          simp only [Option.some.injEq] at h
          subst h
          exact ⟨rfl, h4⟩

theorem processLine_fix {l : List Char} (h1 : pyStrip l = l) (h2 : l ≠ [])
    (h3 : headerLike l = false) (h4 : isTimestamp l = false) (h5 : stripTags l = l) :
    processLine l = some l := by
  unfold processLine
  simp [h1, h2, h3, h4, h5]

theorem cleanLoop_mem : ∀ (lines : List (List Char)) (prev : Option (List Char))
    (l : List Char), l ∈ cleanLoop prev lines →
    ∃ raw, raw ∈ lines ∧ processLine raw = some l := by
  intro lines
  induction lines with
  | nil => intro prev l h; simp [cleanLoop] at h
  | cons line rest ih =>
    intro prev l h
    simp only [cleanLoop] at h
    split at h
    · obtain ⟨raw, hr, hp⟩ := ih prev l h
      exact ⟨raw, List.mem_cons_of_mem _ hr, hp⟩
    · rename_i l2 hl2
      split at h
      · obtain ⟨raw, hr, hp⟩ := ih prev l h
        exact ⟨raw, List.mem_cons_of_mem _ hr, hp⟩
      · rcases List.mem_cons.mp h with h' | h'
        · subst h'
          exact ⟨line, List.mem_cons_self _ _, hl2⟩
        · obtain ⟨raw, hr, hp⟩ := ih (some l2) l h'
          exact ⟨raw, List.mem_cons_of_mem _ hr, hp⟩

theorem cleanLoop_head_ne : ∀ (lines : List (List Char)) (prev : Option (List Char))
    (h : List Char), (cleanLoop prev lines).head? = some h → prev ≠ some h := by
  intro lines
  induction lines with
  | nil => intro prev h hh; simp [cleanLoop] at hh
  | cons line rest ih =>
    intro prev h hh
    simp only [cleanLoop] at hh
    split at hh
    · exact ih prev h hh
    · rename_i l2 hl2
      split at hh
      · exact ih prev h hh
      · rename_i hne
        simp only [List.head?_cons, Option.some.injEq] at hh
        subst hh
        exact hne

theorem cleanLoop_chain : ∀ (lines : List (List Char)) (prev : Option (List Char)),
    List.Chain' (fun a b => a ≠ b) (cleanLoop prev lines) := by
  intro lines
  induction lines with
  | nil => intro prev; simp [cleanLoop]
  | cons line rest ih =>
    intro prev
    simp only [cleanLoop]
    split
    · exact ih prev
    · rename_i l2 hl2
      split
      · exact ih prev
      · rw [List.chain'_cons']
        refine ⟨?_, ih (some l2)⟩
        intro y hy heq
        exact cleanLoop_head_ne rest (some l2) y (Option.mem_def.mp hy) (by rw [heq])

theorem cleanLoop_fix : ∀ (ls : List (List Char)) (prev : Option (List Char)),
    (∀ l ∈ ls, processLine l = some l) →
    List.Chain' (fun a b => a ≠ b) ls →
    (∀ h, ls.head? = some h → prev ≠ some h) →
    cleanLoop prev ls = ls := by
  intro ls
  induction ls with
  | nil => intro prev _ _ _; rfl
  | cons l rest ih =>
    intro prev hp hc hh
    have hpl := hp l (List.mem_cons_self l rest)
    simp only [cleanLoop, hpl]
    rw [if_neg (fun he => hh l rfl he)]
    congr 1
    apply ih (some l)
    · intro x hx; exact hp x (List.mem_cons_of_mem _ hx)
    · exact (List.chain'_cons'.mp hc).2
    · intro h hhd heq
      have hlh : l ≠ h := (List.chain'_cons'.mp hc).1 h (Option.mem_def.mpr hhd)
      injection heq with heq'
      exact hlh heq'



theorem splitLinesAux_nil (sk : Bool) (acc : List Char) :
    splitLinesAux [] sk acc = if acc = [] then [] else [acc.reverse] := by
  simp [splitLinesAux]

theorem splitLinesAux_newline (rest : List Char) (acc : List Char) :
    splitLinesAux ('\n' :: rest) false acc = acc.reverse :: splitLinesAux rest false [] := by
  simp [splitLinesAux, pyBreak]

theorem splitLinesAux_nobreak {c : Char} (cs acc : List Char) (sk : Bool)
    (hc : pyBreak c = false) :
    splitLinesAux (c :: cs) sk acc = splitLinesAux cs false (c :: acc) := by
  have h1 : (c == '\r') = false := by
    cases h : c == '\r'
    · rfl
    · exfalso; rw [beq_iff_eq] at h; subst h; simp [pyBreak] at hc
  have h2 : (c == '\n') = false := by
    cases h : c == '\n'
    · rfl
    · exfalso; rw [beq_iff_eq] at h; subst h; simp [pyBreak] at hc
  simp [splitLinesAux, hc, h1, h2]

theorem splitLinesAux_break_free : ∀ (s : List Char) (sk : Bool) (acc : List Char),
    (∀ c ∈ acc, pyBreak c = false) →
    ∀ l ∈ splitLinesAux s sk acc, ∀ c ∈ l, pyBreak c = false := by
  intro s
  induction s with
  | nil =>
    intro sk acc hacc l hl c hc
    rw [splitLinesAux_nil] at hl
    split at hl
    · simp at hl
    · simp only [List.mem_singleton] at hl
      subst hl
      exact hacc c (List.mem_reverse.mp hc)
  | cons d rest ih =>
    intro sk acc hacc l hl c hc
    simp only [splitLinesAux] at hl
    split at hl
    · exact ih false acc hacc l hl c hc
    · split at hl
      · rcases List.mem_cons.mp hl with h | h
        · subst h; exact hacc c (List.mem_reverse.mp hc)
        · exact ih true [] (by simp) l h c hc
      · split at hl
        · rcases List.mem_cons.mp hl with h | h
          · subst h; exact hacc c (List.mem_reverse.mp hc)
          · exact ih false [] (by simp) l h c hc
        · rename_i h1 h2 h3
          refine ih false (d :: acc) ?_ l hl c hc
          intro x hx
          rcases List.mem_cons.mp hx with h | h
          · subst h
            exact Bool.not_eq_true _ ▸ (by simpa using h3)
          · exact hacc x h

theorem splitLines_break_free {s : List Char} :
    ∀ l ∈ splitLines s, ∀ c ∈ l, pyBreak c = false :=
  splitLinesAux_break_free s false [] (by simp)

theorem splitLinesAux_append : ∀ (l : List Char), (∀ c ∈ l, pyBreak c = false) →
    ∀ (r acc : List Char),
    splitLinesAux (l ++ r) false acc = splitLinesAux r false (l.reverse ++ acc) := by
  intro l
  induction l with
  | nil => intro _ r acc; simp
  | cons c cs ih =>
    intro h r acc
    rw [List.cons_append, splitLinesAux_nobreak _ _ _ (h c (List.mem_cons_self _ _))]
    rw [ih (fun x hx => h x (List.mem_cons_of_mem _ hx)) r (c :: acc)]
    simp

theorem splitLines_joinLines : ∀ (L : List (List Char)),
    (∀ l ∈ L, l ≠ [] ∧ ∀ c ∈ l, pyBreak c = false) →
    splitLines (joinLines L) = L := by
  intro L
  induction L with
  | nil => intro _; simp [splitLines, joinLines, splitLinesAux]
  | cons l rest ih =>
    intro h
    have h1 := h l (List.mem_cons_self _ _)
    cases rest with
    | nil =>
      show splitLinesAux (joinLines [l]) false [] = [l]
      rw [show joinLines [l] = l ++ [] from by simp [joinLines]]
      rw [splitLinesAux_append l h1.2 [] []]
      rw [splitLinesAux_nil]
      rw [if_neg (by simp [h1.1])]
      simp
    | cons l2 rest2 =>
      show splitLinesAux (joinLines (l :: l2 :: rest2)) false [] = l :: l2 :: rest2
      rw [show joinLines (l :: l2 :: rest2) = l ++ '\n' :: joinLines (l2 :: rest2) from rfl]
      rw [splitLinesAux_append l h1.2 _ []]
      rw [splitLinesAux_newline]
      simp only [List.append_nil, List.reverse_reverse]
      have := ih (fun x hx => h x (List.mem_cons_of_mem _ hx))
      simp only [splitLines] at this
      rw [this]

theorem cleanLoop_out_props {s : List Char} :
    ∀ l ∈ cleanLoop none (splitLines s),
      pyStrip l = l ∧ l ≠ [] ∧ tagFree l ∧ ∀ c ∈ l, pyBreak c = false := by
  intro l hl
  obtain ⟨raw, hraw, hp⟩ := cleanLoop_mem (splitLines s) none l hl
  obtain ⟨hl_eq, hne⟩ := processLine_eq_some hp
  subst hl_eq
  refine ⟨pyStrip_idem _, hne, ?_, ?_⟩
  · exact tagFree_sublist (pyStrip_sublist _) (stripTags_tagFree _)
  · intro c hc
    have hc2 : c ∈ stripTags (pyStrip raw) := mem_of_mem_pyStrip hc
    have hc3 : c ∈ pyStrip raw := mem_stripTags hc2
    have hc4 : c ∈ raw := mem_of_mem_pyStrip hc3
    exact splitLines_break_free raw hraw c hc4

theorem normalizeText_idem_aux (s : List Char)
    (H : ∀ l ∈ cleanLoop none (splitLines s),
      headerLike l = false ∧ isTimestamp l = false) :
    normalizeText (normalizeText s) = normalizeText s := by
  have hprops := @cleanLoop_out_props s
  have hround : splitLines (joinLines (cleanLoop none (splitLines s)))
      = cleanLoop none (splitLines s) :=
    splitLines_joinLines _ (fun l hl => ⟨(hprops l hl).2.1, (hprops l hl).2.2.2⟩)
  have hfix : cleanLoop none (cleanLoop none (splitLines s)) = cleanLoop none (splitLines s) := by
    apply cleanLoop_fix
    · intro l hl
      obtain ⟨hstr, hne, htf, _⟩ := hprops l hl
      obtain ⟨hh, ht⟩ := H l hl
      exact processLine_fix hstr hne hh ht (stripTags_of_tagFree htf)
    · exact cleanLoop_chain _ none
    · intro h _ heq; exact Option.noConfusion heq
  show normalizeLines (splitLines (normalizeLines (splitLines s)))
      = normalizeLines (splitLines s)
  simp only [normalizeLines]
  rw [hround, hfix]





theorem whisper_attempt_disk (o : TOracle) (d : Disk) :
    ((whisper_attempt o d).2).video = d.video ∧ ((whisper_attempt o d).2).audio = d.audio := by
  unfold whisper_attempt
  split
  · split
    · split
      · split <;> simp
      · simp
    · simp
  · split
    · split <;> simp
    · simp

theorem transcribe_audio_disk (o : TOracle) (d : Disk) (hw : d.wav = false) :
    ((transcribe_audio o d).2).wav = false ∧
    ((transcribe_audio o d).2).video = d.video ∧
    ((transcribe_audio o d).2).audio = d.audio := by
  unfold transcribe_audio
  split
  · rcases hwa : whisper_attempt o d with ⟨r, d1⟩
    have h1 := whisper_attempt_disk o d
    rw [hwa] at h1
    simp only at h1
    cases r <;> simp [h1.1, h1.2]
  · exact ⟨hw, rfl, rfl⟩

theorem extract_and_transcribe_disk (o : TOracle) (d : Disk) (hw : d.wav = false) :
    ((extract_and_transcribe o d).2).audio = false ∧
    ((extract_and_transcribe o d).2).wav = false ∧
    ((extract_and_transcribe o d).2).video = d.video := by
  unfold extract_and_transcribe
  split
  · split
    · rcases hta : transcribe_audio o { d with audio := o.extractCreatesAudio } with ⟨r, d1⟩
      have h1 := transcribe_audio_disk o { d with audio := o.extractCreatesAudio } hw
      rw [hta] at h1
      simp only at h1
      simp [h1.1, h1.2.1]
    · simp [hw]
  · simp [hw]

theorem download_video_disk (o : TOracle) (m : Int) :
    ((download_video o m).2.1).audio = false ∧ ((download_video o m).2.1).wav = false := by
  unfold download_video
  split
  · simp [emptyDisk]
  · split
    · split <;> simp [emptyDisk]
    · simp [emptyDisk]

/-- Claim C2: for every run of the audio transcription fallback, whatever the
oracle answers (success, any failing step, any exception), the final disk
state holds none of the three intermediate artifacts: the downloaded video,
the extracted audio and the converted WAV file are all gone when
`transcribe_from_url` returns. -/
theorem claim2_transcribe_from_url_cleanup (o : TOracle) (m : Int) :
    (transcribe_from_url o m).2.1 = emptyDisk := by
  unfold transcribe_from_url transcribe_attempt
  rcases hdl : download_video o m with ⟨res, d, evs⟩
  have hd := download_video_disk o m
  rw [hdl] at hd
  cases res with
  | error e =>
    simp only
    rcases d with ⟨v, a, w⟩
    simp only at hd
    simp [emptyDisk, hd.1, hd.2]
  | ok u =>
    simp only
    rcases het : extract_and_transcribe o d with ⟨r2, d1⟩
    have h1 := extract_and_transcribe_disk o d hd.2
    rw [het] at h1
    cases r2 <;>
    · simp only
      rcases d1 with ⟨v1, a1, w1⟩
      simp only at h1
      simp [emptyDisk, h1.1, h1.2.1]


/-- Claim C6: when the probed metadata reports a duration strictly above
`max_duration_s`, `_download_video` raises before downloading, so the run
emits no `downloadVideo` call and `transcribe_from_url` returns the empty
string. -/
theorem claim6_too_long_rejected_without_download (o : TOracle) (m : Int)
    (i : TInfo) (dur : Int)
    (h1 : o.extractInfo = some i) (h2 : i.duration = some dur) (h3 : m < dur) :
    (transcribe_from_url o m).1 = [] ∧
    TEvent.downloadVideo ∉ (transcribe_from_url o m).2.2 := by
  have hdl : download_video o m =
      (Except.error PyErr.valueError, emptyDisk, [TEvent.probeMeta]) := by
    unfold download_video
    rw [h1]
    simp only [h2, Option.getD_some]
    rw [if_neg (by omega)]
  unfold transcribe_from_url transcribe_attempt
  rw [hdl]
  simp

/-- Witness for claim C6 at a video of duration 301 with the bound 300. -/
theorem claim6_too_long_witness :
    (transcribe_from_url
      ⟨some ⟨some 301⟩, true, true, true, true, true, pcmCodec, true, true,
        some "hi".toList⟩ 300).1 = [] ∧
    TEvent.downloadVideo ∉
      (transcribe_from_url
        ⟨some ⟨some 301⟩, true, true, true, true, true, pcmCodec, true, true,
          some "hi".toList⟩ 300).2.2 :=
  claim6_too_long_rejected_without_download _ 300 ⟨some 301⟩ 301 rfl rfl (by omega)

/-- Claim C10: when the probed metadata has no duration field,
`info_dict.get("duration", 0)` yields 0, so for every bound of at least 0 the
duration check passes and the video download is invoked. -/
theorem claim10_unknown_duration_passes (o : TOracle) (m : Int) (i : TInfo)
    (h1 : o.extractInfo = some i) (h2 : i.duration = none) (h3 : 0 ≤ m) :
    TEvent.downloadVideo ∈ (transcribe_from_url o m).2.2 := by
  unfold transcribe_from_url transcribe_attempt download_video
  rw [h1]
  simp only [h2, Option.getD_none]
  rw [if_pos h3]
  cases hok : o.downloadOk
  · simp
  · rcases het : extract_and_transcribe o ⟨true, false, false⟩ with ⟨r, d1⟩
    cases r <;> simp [hok, het]

/-- Witness for claim C10 at a video with unknown duration and the bound
300. -/
theorem claim10_unknown_duration_witness :
    TEvent.downloadVideo ∈
      (transcribe_from_url
        ⟨some ⟨none⟩, true, true, true, true, true, pcmCodec, true, true,
          some "hi".toList⟩ 300).2.2 :=
  claim10_unknown_duration_passes _ 300 ⟨none⟩ rfl rfl (by omega)


theorem fetch_events (o : SubsOracle) (url lang : List Char) (a : Bool) :
    (fetch_subtitles o url lang a).2 = [PEvent.subsDownload a] ∨
    (fetch_subtitles o url lang a).2 =
      [PEvent.subsDownload a, PEvent.subsDownload true] := by
  unfold fetch_subtitles
  split
  · left; rfl
  · split
    · left; rfl
    · split
      · split
        · right; rfl
        · right; rfl
      · right; rfl

theorem fetch_events_subs (o : SubsOracle) (url lang : List Char) (a : Bool) :
    ∀ e ∈ (fetch_subtitles o url lang a).2, ∃ b, e = PEvent.subsDownload b := by
  intro e he
  rcases fetch_events o url lang a with h | h <;> rw [h] at he <;> simp at he
  · exact ⟨a, he⟩
  · rcases he with h' | h'
    · exact ⟨a, h'⟩
    · exact ⟨true, h'⟩

theorem afterAcq_spec (env : PipeEnv) (v : PyVal) (evs : List PEvent) :
    ∃ out evs2, afterAcq env v evs = Except.ok (out, evs2) ∧
      (evs2 = evs ∨ ∃ t, evs2 = evs ++ [PEvent.summarize t]) := by
  cases v with
  | vNone => exact ⟨Outcome.noneOut, evs, rfl, Or.inl rfl⟩
  | vCoroutine => exact ⟨Outcome.noneOut, evs, rfl, Or.inl rfl⟩
  | vStr s =>
    by_cases hs : s.isEmpty
    · exact ⟨Outcome.noneOut, evs, by simp [afterAcq, truthy, hs], Or.inl rfl⟩
    · rcases hf : env.summarizeFn s with _ | t
      · exact ⟨Outcome.noneOut, evs ++ [PEvent.summarize s],
          by simp [afterAcq, truthy, hs, hf], Or.inr ⟨s, rfl⟩⟩
      · exact ⟨Outcome.summaryOut t, evs ++ [PEvent.summarize s],
          by simp [afterAcq, truthy, hs, hf], Or.inr ⟨s, rfl⟩⟩

/-- Claim C5: when the subtitle result is falsy and `OPENAI_API_KEY` is
absent, `Pipline.start` ends in the missing-credential exit (the modeled
`sys.exit(1)` — the failure the spec calls `MissingCredential`) and the run
performed only subtitle downloads: no metadata probe, no video download, no
transcription. -/
theorem claim5_missing_credential_fail_fast (pl : Pipline) (env : PipeEnv)
    (gk : List Char) (r : Option (List Char)) (evs : List PEvent)
    (h1 : env.geminiKey = some gk)
    (h2 : fetch_subtitles env.subs pl.url pl.lang false = (Except.ok r, evs))
    (h3 : truthy (optToVal r) = false)
    (h4 : env.openaiKey = none) :
    Pipline.start pl env = Except.ok (Outcome.exitMissingOpenai, evs) ∧
    ∀ e ∈ evs, ∃ b, e = PEvent.subsDownload b := by
  constructor
  · unfold Pipline.start
    rw [h1, h2]
    simp [h3, h4]
  · intro e he
    apply fetch_events_subs env.subs pl.url pl.lang false e
    have hsnd : (fetch_subtitles env.subs pl.url pl.lang false).2 = evs := by
      rw [h2]
    rw [hsnd]
    exact he

/-- Witness for claim C5: no subtitle file is ever found, `OPENAI_API_KEY` is
absent. -/
theorem claim5_missing_credential_witness :
    Pipline.start ⟨"p".toList, "u".toList, "ru".toList⟩
        ⟨some "G".toList, none, ⟨fun _ => true, none, none⟩,
          ⟨none, false, false, false, false, false, [], false, false, none⟩,
          fun _ => none⟩ =
      Except.ok (Outcome.exitMissingOpenai,
        [PEvent.subsDownload false, PEvent.subsDownload true]) ∧
    ∀ e ∈ [PEvent.subsDownload false, PEvent.subsDownload true],
      ∃ b, e = PEvent.subsDownload b :=
  claim5_missing_credential_fail_fast _ _ "G".toList none _ rfl rfl rfl rfl


/-- Claim C8: the fallback chain is strictly ordered.  First, in a run that
asks for official subtitles (`auto_sub = false`), the auto-generated download
is requested only when the official attempt produced no valid (present,
non-empty) file.  Second, whenever subtitle acquisition returns a truthy
transcript, the whole controller run performs only subtitle downloads and
(possibly) a summarization call — never a metadata probe, video download or
transcription. -/
theorem claim8_fallback_chain_order :
    (∀ (o : SubsOracle) (url lang : List Char),
      PEvent.subsDownload true ∈ (fetch_subtitles o url lang false).2 →
      validFile o.found1 = none) ∧
    (∀ (pl : Pipline) (env : PipeEnv) (gk : List Char)
        (r : Option (List Char)) (evs : List PEvent),
      env.geminiKey = some gk →
      fetch_subtitles env.subs pl.url pl.lang false = (Except.ok r, evs) →
      truthy (optToVal r) = true →
      ∃ out evs2, Pipline.start pl env = Except.ok (out, evs2) ∧
        ∀ e ∈ evs2, (∃ b, e = PEvent.subsDownload b) ∨
          ∃ t, e = PEvent.summarize t) := by
  constructor
  · intro o url lang h
    cases hv : validFile o.found1 with
    | none => rfl
    | some f =>
      unfold fetch_subtitles at h
      rw [hv] at h
      simp at h
  · intro pl env gk r evs h1 h2 h3
    obtain ⟨out, evs2, hq, hd⟩ := afterAcq_spec env (optToVal r) evs
    refine ⟨out, evs2, ?_, ?_⟩
    · unfold Pipline.start
      rw [h1, h2]
      simp only
      rw [if_pos h3]
      exact hq
    · intro e he
      have hsubs : ∀ x ∈ evs, ∃ b, x = PEvent.subsDownload b := by
        intro x hx
        apply fetch_events_subs env.subs pl.url pl.lang false x
        have hsnd : (fetch_subtitles env.subs pl.url pl.lang false).2 = evs := by
          rw [h2]
        rw [hsnd]
        exact hx
      rcases hd with hd | ⟨t, hd⟩
      · subst hd
        exact Or.inl (hsubs e he)
      · subst hd
        rcases List.mem_append.mp he with h' | h'
        · exact Or.inl (hsubs e h')
        · simp at h'
          exact Or.inr ⟨t, h'⟩

/-- Witness for claim C8: a run with no subtitle file at all requests the
auto fallback (first part), and a run whose official file parses to
`"Hello"` reaches summarization with only subtitle-download events (second
part). -/
theorem claim8_fallback_chain_witness :
    validFile (SubsOracle.mk (fun _ => true) none none).found1 = none ∧
    ∃ out evs2,
      Pipline.start ⟨"p".toList, "u".toList, "ru".toList⟩
          ⟨some "G".toList, some "O".toList,
            ⟨fun _ => true, some ⟨5, some "Hello".toList⟩, none⟩,
            ⟨none, false, false, false, false, false, [], false, false, none⟩,
            fun _ => some "S".toList⟩ = Except.ok (out, evs2) ∧
      ∀ e ∈ evs2, (∃ b, e = PEvent.subsDownload b) ∨
        ∃ t, e = PEvent.summarize t :=
  ⟨claim8_fallback_chain_order.1 ⟨fun _ => true, none, none⟩ "u".toList "ru".toList
      (by decide),
   claim8_fallback_chain_order.2 _ _ "G".toList (some "Hello".toList)
      [PEvent.subsDownload false] rfl rfl rfl⟩


/-- Claim C1 fails on the code (code bug): in a run where subtitle acquisition
yields nothing, the transcription credential is present, the transcription
fallback would return the non-empty text `"hi"` and the summarizer would
succeed, `Pipline.start` still returns `None` and never calls the summarizer:
`transcribe_from_url` is an `async def` called without `await`, so
`subtitles_text` holds a coroutine object, the `isinstance(subtitles_text,
str)` guard fails, and the `try` block falls through to `return None`. -/
theorem claim1_transcription_result_dropped :
    (transcribe_from_url
      ⟨some ⟨some 10⟩, true, true, true, true, true, pcmCodec, true, true,
        some "hi".toList⟩ 300).1 = "hi".toList ∧
    Pipline.start ⟨"p".toList, "u".toList, "ru".toList⟩
        ⟨some "G".toList, some "O".toList, ⟨fun _ => true, none, none⟩,
          ⟨some ⟨some 10⟩, true, true, true, true, true, pcmCodec, true, true,
            some "hi".toList⟩,
          fun _ => some "S".toList⟩ =
      Except.ok (Outcome.noneOut,
        [PEvent.subsDownload false, PEvent.subsDownload true]) ∧
    PipeEnv.summarizeFn
        ⟨some "G".toList, some "O".toList, ⟨fun _ => true, none, none⟩,
          ⟨some ⟨some 10⟩, true, true, true, true, true, pcmCodec, true, true,
            some "hi".toList⟩,
          fun _ => some "S".toList⟩ "hi".toList = some "S".toList :=
  ⟨by decide, rfl, rfl⟩

/-- Claim C9 fails on the code (code bug): `main` parses `--auto-sub` but
never passes it on — `Pipline` is built from `prompt`, `url`, `lang` only and
`start` calls `fetch_subtitles` with the default `auto_sub=False`.  Hence a
run is independent of `args.auto_sub`, and even with `auto_sub = true` the
first subtitle request is the official one (`subsDownload false`). -/
theorem claim9_auto_sub_flag_dropped :
    (∀ (args : CliArgs) (env : PipeEnv),
      main args env = main ⟨args.prompt, args.url, args.lang, false⟩ env) ∧
    main ⟨"p".toList, "u".toList, "ru".toList, true⟩
        ⟨some "G".toList, some "O".toList, ⟨fun _ => true, none, none⟩,
          ⟨none, false, false, false, false, false, [], false, false, none⟩,
          fun _ => none⟩ =
      Except.ok (Outcome.noneOut,
        [PEvent.subsDownload false, PEvent.subsDownload true]) :=
  ⟨fun _ _ => rfl, rfl⟩


/-- Claim C4 fails on the code: `parse_subtitle` re-raises a read failure as
`IOError` and `fetch_subtitles` does not catch it, so with a located, valid
(size 5) but unreadable subtitle file the exception escapes the stage boundary
and crosses into (and out of) the controller. -/
theorem claim4_read_error_escapes :
    fetch_subtitles ⟨fun _ => true, some ⟨5, none⟩, none⟩ "u".toList "ru".toList
        false = (Except.error PyErr.ioError, [PEvent.subsDownload false]) ∧
    Pipline.start ⟨"p".toList, "u".toList, "ru".toList⟩
        ⟨some "G".toList, some "O".toList, ⟨fun _ => true, some ⟨5, none⟩, none⟩,
          ⟨none, false, false, false, false, false, [], false, false, none⟩,
          fun _ => none⟩ = Except.error PyErr.ioError :=
  ⟨rfl, rfl⟩

/-- Claim C4, amended: subtitle acquisition raises no exception as long as
every subtitle file it parses can be read (download failures and absent or
empty files are downgraded to `None`), and the transcription stage downgrades
every failure of its `try` block to the empty string. -/
theorem claim4_failures_downgraded_amended :
    (∀ (o : SubsOracle) (url lang : List Char) (auto_sub : Bool),
      readableOpt (validFile o.found1) = true →
      readableOpt (validFile o.found2) = true →
      ∃ r, (fetch_subtitles o url lang auto_sub).1 = Except.ok r) ∧
    (∀ (o : TOracle) (m : Int) (e : PyErr) (d : Disk) (evs : List TEvent),
      transcribe_attempt o m = (Except.error e, d, evs) →
      (transcribe_from_url o m).1 = []) := by
  constructor
  · intro o url lang auto_sub hr1 hr2
    have hparse : ∀ f : SubFile, readableOpt (some f) = true →
        ∃ r, parsedResult f = Except.ok r := by
      intro f hf
      rcases hc : f.content with _ | s
      · rw [readableOpt] at hf
        rw [hc] at hf
        simp at hf
      · by_cases hp : pyStrip (normalizeText s) = []
        · exact ⟨none, by simp [parsedResult, parse_subtitle, hc, hp]⟩
        · exact ⟨some (normalizeText s), by simp [parsedResult, parse_subtitle, hc, hp]⟩
    unfold fetch_subtitles
    cases hv : validFile o.found1 with
    | some f =>
      rw [hv] at hr1
      obtain ⟨r, hr⟩ := hparse f hr1
      exact ⟨r, by simp [hr]⟩
    | none =>
      cases auto_sub with
      | true => exact ⟨none, rfl⟩
      | false =>
        cases hok : o.downloadOk true with
        | false => exact ⟨none, by simp [hok]⟩
        | true =>
          cases hv2 : validFile o.found2 with
          | none => exact ⟨none, by simp [hok, hv2]⟩
          | some f =>
            rw [hv2] at hr2
            obtain ⟨r, hr⟩ := hparse f hr2
            exact ⟨r, by simp [hok, hv2, hr]⟩

  · intro o m e d evs h
    unfold transcribe_from_url
    rw [h]

/-- Witness for the amended claim C4: a readable official subtitle file
parses without an exception, and a run whose metadata probe fails returns the
empty string. -/
theorem claim4_failures_downgraded_witness :
    (∃ r, (fetch_subtitles ⟨fun _ => true, some ⟨3, some "hi".toList⟩, none⟩
        "u".toList "ru".toList false).1 = Except.ok r) ∧
    (transcribe_from_url
      ⟨none, true, true, true, true, true, pcmCodec, true, true,
        some "x".toList⟩ 300).1 = [] :=
  ⟨claim4_failures_downgraded_amended.1 _ "u".toList "ru".toList false
      (by decide) (by decide),
   claim4_failures_downgraded_amended.2 _ 300 PyErr.runtimeError emptyDisk
      [TEvent.probeMeta] rfl⟩


/-- Claim C3 fails on the code: the normalizer is not idempotent.  The header
check runs before markup stripping, so the line `<b>Kind: captions</b>`
survives one pass as `Kind: captions`, which a second pass then drops as a
header line, giving a different (empty) result. -/
theorem claim3_normalizer_not_idempotent :
    normalizeText (normalizeText "<b>Kind: captions</b>".toList) ≠
      normalizeText "<b>Kind: captions</b>".toList := by
  decide

/-- Claim C3, amended: re-running the normalizer on its own output yields the
same text for every input whose first-pass output contains no header-like and
no timestamp-matching line.  (The counterexample shows the restriction is
necessary: markup stripping can expose a header or timestamp line that only
the second pass drops.) -/
theorem claim3_normalizer_idem_on_clean_output (s : List Char)
    (H : ∀ l ∈ cleanLoop none (splitLines s),
      headerLike l = false ∧ isTimestamp l = false) :
    normalizeText (normalizeText s) = normalizeText s :=
  normalizeText_idem_aux s H

/-- Witness for the amended claim C3 at the input `"Hello\nHello\nWorld"`. -/
theorem claim3_normalizer_idem_witness :
    (∀ l ∈ cleanLoop none (splitLines "Hello\nHello\nWorld".toList),
      headerLike l = false ∧ isTimestamp l = false) ∧
    normalizeText (normalizeText "Hello\nHello\nWorld".toList) =
      normalizeText "Hello\nHello\nWorld".toList :=
  ⟨by decide, claim3_normalizer_idem_on_clean_output _ (by decide)⟩

/-- Claim C7: for every input, the cleaned transcript is a sequence of
non-empty lines in which no two consecutive lines are equal; the lines
`Hello, Hello, World` normalize to `"Hello\nWorld"` (consecutive duplicate
suppressed) while `Hello, World, Hello` keeps its non-adjacent duplicate. -/
theorem claim7_cleaned_transcript_invariant :
    (∀ lines : List (List Char),
      (∀ l ∈ cleanLoop none lines, l ≠ []) ∧
      List.Chain' (fun a b => a ≠ b) (cleanLoop none lines)) ∧
    normalizeLines ["Hello".toList, "Hello".toList, "World".toList] =
      "Hello\nWorld".toList ∧
    normalizeLines ["Hello".toList, "World".toList, "Hello".toList] =
      "Hello\nWorld\nHello".toList := by
  refine ⟨fun lines => ⟨?_, cleanLoop_chain lines none⟩, by decide, by decide⟩
  intro l hl
  obtain ⟨raw, _, hp⟩ := cleanLoop_mem lines none l hl
  exact (processLine_eq_some hp).2

end CruxRec
